import Mathlib

/-!
A shallow embedding of the cast2gif pipeline (src/cast_parser.rs, src/lib.rs,
src/types.rs) together with theorems checking the specification's claims.

Modelling conventions:
* `f32` timestamps and intervals are modelled as `ℚ` (exact arithmetic); the
  comparisons and floor computations the claims exercise are far from any
  rounding boundary.
* The `vt100::Parser` collaborator is modelled abstractly: its state is the
  concatenation of all processed payload chunks, and `screen().clone()` is
  that string.  The pipeline never inspects the screen, it only copies it.
* JSON parsing is modelled abstractly: an input line is already classified as
  empty, malformed, an IO error, or a parsed 3-element record.
-/

namespace Cast2Gif

/-- A frame from types.rs: index, timestamp and a cloned screen state. -/
structure TerminalFrame where
  index : Nat
  time : ℚ
  screen : String
  deriving DecidableEq

/-- The error enum from cast_parser.rs (`AsciinemaError`). -/
inductive AsciinemaError where
  | parseError (msg : String)
  | genericParserError (msg : String)
  | ioError
  | invalidVersion (v : Nat)
  deriving DecidableEq

/-- One line of the recording after the header, classified as the code's
branches see it: empty (skipped), an IO error from the reader, a line that
fails JSON parsing, or a parsed raw record `[time, kind, payload]`. -/
inductive Line where
  | empty
  | ioError
  | malformed (text : String)
  | record (time : ℚ) (kind : String) (payload : String)
  deriving DecidableEq

/-- The header line of the recording, classified as `new` sees it: a reader
IO error, a line that fails to parse as `AsciinemaCastMeta`, or parsed
metadata `{version, width, height, ...}`. -/
inductive HeaderLine where
  | ioError
  | malformed (text : String)
  | meta (version : Nat) (width : Nat) (height : Nat)
  deriving DecidableEq

/-- A whole cast file: the header line (`none` when the file has no lines at
all) followed by the remaining lines. -/
structure CastInput where
  header : Option HeaderLine
  events : List Line
  deriving DecidableEq

/-- The sampler state (`TerminalFrameIter` in cast_parser.rs).  `next_frames`
is the `Vec` of queued filler frames (pushed at the back, popped from the
back); `parser` is the abstract vt100 parser state; `lines` the remaining
lines of the reader. -/
structure TerminalFrameIter where
  next_index : Nat
  interval : ℚ
  last_frame_time : ℚ
  next_frames : List TerminalFrame
  parser : String
  lines : List Line
  deriving DecidableEq

/-- `TerminalFrameIter::new`: read and parse the metadata line, reject any
version other than 2, otherwise start with index 0, last time 0, an empty
filler queue and a fresh parser. -/
def TerminalFrameIter.new (input : CastInput) (interval : ℚ) :
    Except AsciinemaError TerminalFrameIter :=
  match input.header with
  | none => .error (.genericParserError "Missing cast metadata line")
  | some .ioError => .error .ioError
  | some (.malformed text) => .error (.parseError text)
  | some (.meta version _width _height) =>
    if version ≠ 2 then .error (.invalidVersion version)
    else .ok ⟨0, interval, 0, [], "", input.events⟩

/-- The body of the `loop` in `TerminalFrameIter::next` (cast_parser.rs lines
125-232): read lines until one produces an item or the stream ends.  The
state fields are threaded explicitly; the function returns the produced item
(if any) and the successor state. -/
def processLines (next_index : Nat) (interval last_frame_time : ℚ)
    (next_frames : List TerminalFrame) (parser : String) :
    List Line → Option (Except AsciinemaError TerminalFrame) × TerminalFrameIter
  | [] => (none, ⟨next_index, interval, last_frame_time, next_frames, parser, []⟩)
  | .ioError :: rest =>
    (some (.error .ioError),
     ⟨next_index, interval, last_frame_time, next_frames, parser, rest⟩)
  | .empty :: rest =>
    processLines next_index interval last_frame_time next_frames parser rest
  | .malformed text :: rest =>
    (some (.error (.genericParserError ("Error parsing asciinema frame: " ++ text))),
     ⟨next_index, interval, last_frame_time, next_frames, parser, rest⟩)
  | .record time kind payload :: rest =>
    if kind ≠ "o" then
      (some (.error (.genericParserError ("unsupported record kind: " ++ kind))),
       ⟨next_index, interval, last_frame_time, next_frames, parser, rest⟩)
    else
      -- self.parser.process(frame.output.as_bytes())
      let parser' := parser ++ payload
      -- current_index = next_index; next_index += 1 (also on the discard path)
      let current_index := next_index
      let frame_time_diff := time - last_frame_time
      if frame_time_diff ≥ interval then
        -- repeats = floor(dt / interval) as i32; the loop runs for i in 0..repeats
        let repeats := (⌊frame_time_diff / interval⌋).toNat
        if repeats = 0 then
          -- the for loop ran zero times: fall through to the plain emit
          (some (.ok ⟨current_index, time, parser'⟩),
           ⟨current_index + 1, interval, time, next_frames, parser', rest⟩)
        else
          -- i = 0 becomes the filler frame; i = 1 .. repeats-1 are pushed
          let pushed := (List.range (repeats - 1)).map fun j =>
            (⟨current_index + (j + 1), time + ((j : ℚ) + 1) * interval, parser'⟩ :
              TerminalFrame)
          (some (.ok ⟨current_index, time, parser'⟩),
           ⟨current_index + 1, interval, time, next_frames ++ pushed, parser', rest⟩)
      else
        -- dt < interval: discard this frame and grab the next one
        processLines (current_index + 1) interval last_frame_time next_frames parser' rest

/-- `TerminalFrameIter::next`: serve a queued filler frame (popped from the
back of the `Vec`) if one exists, otherwise run the line loop. -/
def TerminalFrameIter.next (s : TerminalFrameIter) :
    Option (Except AsciinemaError TerminalFrame) × TerminalFrameIter :=
  match s.next_frames.getLast? with
  | some f =>
    (some (.ok f),
     ⟨s.next_index + 1, s.interval, s.last_frame_time, s.next_frames.dropLast,
      s.parser, s.lines⟩)
  | none =>
    processLines s.next_index s.interval s.last_frame_time s.next_frames s.parser
      s.lines

lemma processLines_some_lines_lt (next_index : Nat) (interval last_frame_time : ℚ)
    (next_frames : List TerminalFrame) (parser : String) (lines : List Line)
    (r : Except AsciinemaError TerminalFrame) (s' : TerminalFrameIter)
    (h : processLines next_index interval last_frame_time next_frames parser lines
        = (some r, s')) :
    s'.lines.length < lines.length := by
  induction lines generalizing next_index last_frame_time next_frames parser with
  | nil => simp [processLines] at h
  | cons line rest ih =>
    cases line with
    | empty =>
      have := ih next_index last_frame_time next_frames parser
        (by simpa [processLines] using h)
      simpa using Nat.lt_succ_of_lt this
    | ioError =>
      simp [processLines] at h
      simp [← h.2]
    | malformed text =>
      simp [processLines] at h
      simp [← h.2]
    | record time kind payload =>
      by_cases hk : kind = "o"
      · subst hk
        by_cases hd : time - last_frame_time ≥ interval
        · by_cases hrep : (⌊(time - last_frame_time) / interval⌋).toNat = 0
          · simp [processLines, hd, hrep] at h
            simp [← h.2]
          · simp [processLines, hd, hrep] at h
            simp [← h.2]
        · simp only [processLines, ne_eq, not_true_eq_false, if_false, if_neg hd,
            ite_false] at h
          have := ih (next_index + 1) last_frame_time next_frames (parser ++ payload) h
          simpa using Nat.lt_succ_of_lt this
      · simp [processLines, hk] at h
        simp [← h.2]

lemma next_some_measure (s : TerminalFrameIter)
    (r : Except AsciinemaError TerminalFrame) (s' : TerminalFrameIter)
    (h : s.next = (some r, s')) :
    s'.lines.length < s.lines.length ∨
      (s'.lines.length = s.lines.length ∧
        s'.next_frames.length < s.next_frames.length) := by
  unfold TerminalFrameIter.next at h
  cases hq : s.next_frames.getLast? with
  | some f =>
    rw [hq] at h
    simp only [Prod.mk.injEq] at h
    right
    have hne : s.next_frames ≠ [] := by
      intro hnil; rw [hnil] at hq; simp at hq
    rw [← h.2]
    refine ⟨rfl, ?_⟩
    simp only [List.length_dropLast]
    have hpos : 0 < s.next_frames.length := List.length_pos.mpr hne
    omega
  | none =>
    rw [hq] at h
    left
    exact processLines_some_lines_lt _ _ _ _ _ _ _ _ h

/-- The full output sequence of the sampler: call `next` repeatedly,
collecting every produced item, until it returns `none` (the way a consuming
`for` loop drains the Rust iterator). -/
def TerminalFrameIter.run (s : TerminalFrameIter) :
    List (Except AsciinemaError TerminalFrame) :=
  match h : s.next with
  | (none, _) => []
  | (some r, s') => r :: s'.run
termination_by (s.lines.length, s.next_frames.length)
decreasing_by
  rcases next_some_measure s r s' h with h1 | ⟨h1, h2⟩
  · exact Prod.Lex.left _ _ h1
  · rw [h1]
    exact Prod.Lex.right _ h2

/-- Structural characterization of `TerminalFrameIter.run` on a state whose
filler queue is empty: the output sequence, one recording line at a time.
For an emitting record (`dt ≥ interval`, `repeats ≥ 1`) the segment is the
first filler followed by the queued fillers in reverse push order (the queue
is popped from the back). -/
def runAux (parser : String) (next_index : Nat) (interval last_frame_time : ℚ) :
    List Line → List (Except AsciinemaError TerminalFrame)
  | [] => []
  | .ioError :: rest =>
    .error .ioError :: runAux parser next_index interval last_frame_time rest
  | .empty :: rest => runAux parser next_index interval last_frame_time rest
  | .malformed text :: rest =>
    .error (.genericParserError ("Error parsing asciinema frame: " ++ text)) ::
      runAux parser next_index interval last_frame_time rest
  | .record time kind payload :: rest =>
    if kind ≠ "o" then
      .error (.genericParserError ("unsupported record kind: " ++ kind)) ::
        runAux parser next_index interval last_frame_time rest
    else
      let parser' := parser ++ payload
      let current_index := next_index
      let frame_time_diff := time - last_frame_time
      if frame_time_diff ≥ interval then
        let repeats := (⌊frame_time_diff / interval⌋).toNat
        if repeats = 0 then
          .ok ⟨current_index, time, parser'⟩ ::
            runAux parser' (current_index + 1) interval time rest
        else
          let pushed := (List.range (repeats - 1)).map fun j =>
            (⟨current_index + (j + 1), time + ((j : ℚ) + 1) * interval, parser'⟩ :
              TerminalFrame)
          (.ok ⟨current_index, time, parser'⟩ :: pushed.reverse.map .ok) ++
            runAux parser' (current_index + repeats) interval time rest
      else
        runAux parser' (current_index + 1) interval last_frame_time rest

/-- The indices of the successfully emitted snapshots of an output
sequence, in emission order. -/
def emittedIndices (rs : List (Except AsciinemaError TerminalFrame)) : List Nat :=
  rs.filterMap fun r => match r with
    | .ok f => some f.index
    | .error _ => none

/-- A recording line the sampler accepts without error: empty, or an
output record (`kind = "o"`). -/
def Line.isWellFormed : Line → Bool
  | .empty => true
  | .record _ kind _ => kind = "o"
  | _ => false

/-- The sampler as a function of the whole source: construct the iterator
and drain it.  This is the composite a caller runs once over a byte
stream. -/
def sample (input : CastInput) (I : ℚ) :
    Except AsciinemaError (List (Except AsciinemaError TerminalFrame)) :=
  (TerminalFrameIter.new input I).map TerminalFrameIter.run

/-- A rendered frame from types.rs (`RgbaFrame`): index, timestamp and an
opaque pixel buffer (the reassembler never inspects it). -/
structure RgbaFrame where
  index : Nat
  time : ℚ
  image : Nat
  deriving DecidableEq

/-- The buffer scan of `OrderedFrameIter::next` (lib.rs lines 153-166): find
the first buffered frame whose index is the wanted one and remove it
(`Vec::remove` keeps the order of the remaining elements). -/
def findBuffered (current : Nat) : List RgbaFrame → Option (RgbaFrame × List RgbaFrame)
  | [] => none
  | f :: rest =>
    if f.index = current then some (f, rest)
    else (findBuffered current rest).map fun pr => (pr.1, f :: pr.2)

/-- The pull loop of `OrderedFrameIter::next` (lib.rs lines 176-189): pull
frames from the underlying iterator, pushing non-matching ones onto the back
of the buffer, until the wanted index arrives or the iterator ends. -/
def pullNext (current : Nat) (buffer : List RgbaFrame) :
    List RgbaFrame → Option RgbaFrame × List RgbaFrame × List RgbaFrame
  | [] => (none, buffer, [])
  | f :: rest =>
    if f.index = current then (some f, buffer, rest)
    else pullNext current (buffer ++ [f]) rest

/-- The reassembler state (`OrderedFrameIter` in lib.rs): the reorder
buffer, the remaining underlying iterator, and the wanted index. -/
structure OrderedFrameIter where
  buffer : List RgbaFrame
  frames : List RgbaFrame
  current_frame : Nat
  deriving DecidableEq

/-- `OrderedFrameIter::new`. -/
def OrderedFrameIter.new (frame_iter : List RgbaFrame) : OrderedFrameIter :=
  ⟨[], frame_iter, 0⟩

/-- `OrderedFrameIter::next`: serve the wanted index from the buffer if
present, otherwise pull from the underlying iterator; in every case
increment `current_frame` before returning. -/
def OrderedFrameIter.next (s : OrderedFrameIter) :
    Option RgbaFrame × OrderedFrameIter :=
  match findBuffered s.current_frame s.buffer with
  | some (f, buffer') => (some f, ⟨buffer', s.frames, s.current_frame + 1⟩)
  | none =>
    match pullNext s.current_frame s.buffer s.frames with
    | (r, buffer', frames') => (r, ⟨buffer', frames', s.current_frame + 1⟩)

/-- The frames the reassembler still holds: reorder buffer plus the
unconsumed part of the underlying iterator. -/
def OrderedFrameIter.contents (s : OrderedFrameIter) : List RgbaFrame :=
  s.buffer ++ s.frames

lemma findBuffered_some (current : Nat) (b : List RgbaFrame)
    (f : RgbaFrame) (b' : List RgbaFrame)
    (h : findBuffered current b = some (f, b')) :
    f.index = current ∧ b.Perm (f :: b') := by
  induction b generalizing b' with
  | nil => simp [findBuffered] at h
  | cons g rest ih =>
    by_cases hg : g.index = current
    · simp [findBuffered, hg] at h
      obtain ⟨rfl, rfl⟩ := h
      exact ⟨hg, List.Perm.refl _⟩
    · simp only [findBuffered, if_neg hg, Option.map_eq_some'] at h
      obtain ⟨⟨f1, r1⟩, hrec, heq⟩ := h
      simp only [Prod.mk.injEq] at heq
      obtain ⟨rfl, rfl⟩ := heq
      obtain ⟨hidx, hperm⟩ := ih r1 hrec
      exact ⟨hidx, (hperm.cons g).trans (List.Perm.swap f1 g r1)⟩

lemma pullNext_some (current : Nat) (fr : List RgbaFrame) :
    ∀ (b b' fr' : List RgbaFrame) (f : RgbaFrame),
      pullNext current b fr = (some f, b', fr') →
      f.index = current ∧ (b ++ fr).Perm (f :: (b' ++ fr')) := by
  induction fr with
  | nil => intro b b' fr' f h; simp [pullNext] at h
  | cons g rest ih =>
    intro b b' fr' f h
    by_cases hg : g.index = current
    · simp [pullNext, hg] at h
      obtain ⟨rfl, rfl, rfl⟩ := h
      exact ⟨hg, List.perm_middle⟩
    · rw [pullNext, if_neg hg] at h
      obtain ⟨hidx, hperm⟩ := ih (b ++ [g]) b' fr' f h
      refine ⟨hidx, ?_⟩
      have : b ++ g :: rest = (b ++ [g]) ++ rest := by simp
      rw [this]
      exact hperm

/-- Whenever `next` produces a frame, that frame is removed from the held
contents (up to permutation) and the wanted index advances. -/
lemma ordered_next_some_perm (s : OrderedFrameIter) (f : RgbaFrame)
    (s' : OrderedFrameIter) (h : s.next = (some f, s')) :
    s.contents.Perm (f :: s'.contents) ∧
      s'.current_frame = s.current_frame + 1 := by
  unfold OrderedFrameIter.next at h
  cases hfb : findBuffered s.current_frame s.buffer with
  | some pr =>
    obtain ⟨g, b'⟩ := pr
    rw [hfb] at h
    simp only [Prod.mk.injEq, Option.some.injEq] at h
    obtain ⟨rfl, rfl⟩ := h
    obtain ⟨_, hperm⟩ := findBuffered_some _ _ _ _ hfb
    exact ⟨hperm.append_right s.frames, rfl⟩
  | none =>
    rw [hfb] at h
    cases hpn : pullNext s.current_frame s.buffer s.frames with
    | mk r rest =>
      obtain ⟨b', fr'⟩ := rest
      rw [hpn] at h
      simp only [Prod.mk.injEq] at h
      obtain ⟨hr, hs'⟩ := h
      subst hr
      obtain ⟨_, hperm⟩ := pullNext_some _ _ _ _ _ _ hpn
      rw [← hs']
      exact ⟨hperm, rfl⟩

/-- The reassembler output: call `next` until it returns `none` (the way
`sequence_gif`'s `for` loop consumes the iterator). -/
def OrderedFrameIter.run (s : OrderedFrameIter) : List RgbaFrame :=
  match h : s.next with
  | (none, _) => []
  | (some f, s') => f :: s'.run
termination_by s.contents.length
decreasing_by
  have := (ordered_next_some_perm s f s' h).1.length_eq
  simp only [List.length_cons] at this
  omega

/-- The progress counters from types.rs (`CastRenderProgress`); `default`
starts all three at zero. -/
structure CastRenderProgress where
  count : Nat
  raster_progress : Nat
  sequence_progress : Nat
  deriving DecidableEq

/-- The progress commands from types.rs (`ProgressCmd`). -/
inductive ProgressCmd where
  | incrementCount
  | incrementRasterProgress
  | incrementSequenceProgress
  deriving DecidableEq

/-- One arm of the `match cmd` in `progress_thread` (lib.rs lines 95-99). -/
def applyCmd (progress : CastRenderProgress) : ProgressCmd → CastRenderProgress
  | .incrementCount => { progress with count := progress.count + 1 }
  | .incrementRasterProgress =>
    { progress with raster_progress := progress.raster_progress + 1 }
  | .incrementSequenceProgress =>
    { progress with sequence_progress := progress.sequence_progress + 1 }

/-- The loop of `progress_thread`: apply each received command to the
counters and hand the updated counters to the observer; the returned list is
the sequence of observer invocations. -/
def progressLoop (progress : CastRenderProgress) :
    List ProgressCmd → List CastRenderProgress
  | [] => []
  | cmd :: rest =>
    let progress' := applyCmd progress cmd
    progress' :: progressLoop progress' rest

/-- `progress_thread` (lib.rs lines 86-102): counters start at
`Default::default()` (all zero); the result is what `update_progress`
observes, in order. -/
def progress_thread (cmds : List ProgressCmd) : List CastRenderProgress :=
  progressLoop ⟨0, 0, 0⟩ cmds

/-- One progress event's effect: each counter either stays or grows by one,
and exactly one of them grows. -/
def ProgressStep (a b : CastRenderProgress) : Prop :=
  (b.count = a.count ∨ b.count = a.count + 1) ∧
  (b.raster_progress = a.raster_progress ∨
    b.raster_progress = a.raster_progress + 1) ∧
  (b.sequence_progress = a.sequence_progress ∨
    b.sequence_progress = a.sequence_progress + 1) ∧
  b.count + b.raster_progress + b.sequence_progress =
    a.count + a.raster_progress + a.sequence_progress + 1

/-- The error enum from lib.rs (`Error`). -/
inductive Error where
  | generic (msg : String)
  | asciinema (e : AsciinemaError)
  | ioError
  | imageError
  deriving DecidableEq

/-- How one call of the top-level conversion ends: a normal `Ok`, a typed
`Err`, or an abrupt panic (an `expect`/`unwrap` failure) with the panic
message. -/
inductive ConvertOutcome where
  | ok
  | err (e : Error)
  | panicked (msg : String)
  deriving DecidableEq

/-- The error surface of `convert_to_gif_with_progress` (lib.rs lines
268-302), with the concurrent pipeline flattened to its sequential error
behaviour: `TerminalFrameIter::new(reader).expect("TODO")` (line 289) panics
on any header error instead of returning it; `png_raster_thread` unwraps
every frame result with `frame.expect("TODO")` (line 114), so any malformed
or unsupported record panics the raster thread; `sequence_gif` panics via
`recv().expect("TODO: Got a gif with no frames?")` (line 205) when no frame
ever arrives.  Rendering and encoding of ok frames are modelled as
succeeding. -/
def convert_to_gif_with_progress (input : CastInput) (interval : ℚ) :
    ConvertOutcome :=
  match TerminalFrameIter.new input interval with
  | .error _ => .panicked "TODO"
  | .ok s =>
    if (s.run).any fun r => match r with
        | .error _ => true
        | .ok _ => false then
      .panicked "TODO"
    else if (s.run).isEmpty then
      .panicked "TODO: Got a gif with no frames?"
    else .ok

/-- `convert_to_gif`: the progress handler plays no role in the outcome. -/
def convert_to_gif (input : CastInput) (interval : ℚ) : ConvertOutcome :=
  convert_to_gif_with_progress input interval

lemma run_unfold (s : TerminalFrameIter) :
    s.run = match s.next with
      | (none, _) => []
      | (some r, s') => r :: s'.run := by
  rw [TerminalFrameIter.run.eq_def]
  rcases hn : s.next with ⟨_ | r, s'⟩ <;> simp

lemma run_next_none (s s' : TerminalFrameIter) (h : s.next = (none, s')) :
    s.run = [] := by
  rw [run_unfold, h]

lemma run_next_some (s : TerminalFrameIter)
    (r : Except AsciinemaError TerminalFrame) (s' : TerminalFrameIter)
    (h : s.next = (some r, s')) : s.run = r :: s'.run := by
  rw [run_unfold, h]

lemma run_next_congr (s t : TerminalFrameIter) (h : s.next = t.next) :
    s.run = t.run := by
  rw [run_unfold, h, ← run_unfold]

/-- Draining the filler queue: the sampler first pops every queued filler
frame (from the back of the queue), incrementing `next_index` once per pop,
before it reads any further line. -/
lemma run_pop (q : List TerminalFrame) (idx : Nat) (I last : ℚ) (parser : String)
    (lines : List Line) :
    TerminalFrameIter.run ⟨idx, I, last, q, parser, lines⟩ =
      q.reverse.map .ok ++
        TerminalFrameIter.run ⟨idx + q.length, I, last, [], parser, lines⟩ := by
  induction q using List.reverseRecOn generalizing idx with
  | nil => simp
  | append_singleton q' f ih =>
    have hnext : (⟨idx, I, last, q' ++ [f], parser, lines⟩ :
        TerminalFrameIter).next =
        (some (.ok f), ⟨idx + 1, I, last, q', parser, lines⟩) := by
      simp [TerminalFrameIter.next, List.getLast?_concat]
    rw [run_next_some _ _ _ hnext]
    simp only [ih (idx + 1), List.reverse_append, List.reverse_singleton,
      List.singleton_append, List.map_cons, List.length_append,
      List.length_singleton, List.cons_append]
    have : idx + 1 + q'.length = idx + (q'.length + 1) := by omega
    rw [this]
    simp

/-- Bridge between the iterator-driven `run` and its structural
characterization `runAux`, for a state whose filler queue is empty. -/
lemma run_eq_runAux (lines : List Line) :
    ∀ (parser : String) (idx : Nat) (I last : ℚ),
      TerminalFrameIter.run ⟨idx, I, last, [], parser, lines⟩ =
        runAux parser idx I last lines := by
  induction lines with
  | nil =>
    intro parser idx I last
    rw [run_next_none _ ⟨idx, I, last, [], parser, []⟩ (by
      simp [TerminalFrameIter.next, processLines]), runAux]
  | cons line rest ih =>
    intro parser idx I last
    cases line with
    | ioError =>
      have hnext : (⟨idx, I, last, [], parser, .ioError :: rest⟩ :
          TerminalFrameIter).next =
          (some (.error .ioError), ⟨idx, I, last, [], parser, rest⟩) := by
        simp [TerminalFrameIter.next, processLines]
      rw [run_next_some _ _ _ hnext, ih, runAux]
    | empty =>
      have hnext : (⟨idx, I, last, [], parser, .empty :: rest⟩ :
          TerminalFrameIter).next =
          (⟨idx, I, last, [], parser, rest⟩ : TerminalFrameIter).next := by
        simp [TerminalFrameIter.next, processLines]
      rw [run_next_congr _ _ hnext, ih, runAux]
    | malformed text =>
      have hnext : (⟨idx, I, last, [], parser, .malformed text :: rest⟩ :
          TerminalFrameIter).next =
          (some (.error (.genericParserError
              ("Error parsing asciinema frame: " ++ text))),
           ⟨idx, I, last, [], parser, rest⟩) := by
        simp [TerminalFrameIter.next, processLines]
      rw [run_next_some _ _ _ hnext, ih, runAux]
    | record time kind payload =>
      by_cases hk : kind = "o"
      · subst hk
        by_cases hd : time - last ≥ I
        · by_cases hrep : (⌊(time - last) / I⌋).toNat = 0
          · have hnext : (⟨idx, I, last, [], parser,
                .record time "o" payload :: rest⟩ : TerminalFrameIter).next =
                (some (.ok ⟨idx, time, parser ++ payload⟩),
                 ⟨idx + 1, I, time, [], parser ++ payload, rest⟩) := by
              simp [TerminalFrameIter.next, processLines, hd, hrep]
            rw [run_next_some _ _ _ hnext, ih]
            simp [runAux, hd, hrep]
          · have hnext : (⟨idx, I, last, [], parser,
                .record time "o" payload :: rest⟩ : TerminalFrameIter).next =
                (some (.ok ⟨idx, time, parser ++ payload⟩),
                 ⟨idx + 1, I, time,
                  (List.range ((⌊(time - last) / I⌋).toNat - 1)).map fun j =>
                    (⟨idx + (j + 1), time + ((j : ℚ) + 1) * I,
                      parser ++ payload⟩ : TerminalFrame),
                  parser ++ payload, rest⟩) := by
              simp [TerminalFrameIter.next, processLines, hd, hrep]
            rw [run_next_some _ _ _ hnext, run_pop]
            simp only [List.length_map, List.length_range]
            have harith : idx + 1 + ((⌊(time - last) / I⌋).toNat - 1) =
                idx + (⌊(time - last) / I⌋).toNat := by omega
            rw [harith, ih]
            simp [runAux, hd, hrep]
        · have hnext : (⟨idx, I, last, [], parser,
              .record time "o" payload :: rest⟩ : TerminalFrameIter).next =
              (⟨idx + 1, I, last, [], parser ++ payload, rest⟩ :
                TerminalFrameIter).next := by
            simp [TerminalFrameIter.next, processLines, hd]
          rw [run_next_congr _ _ hnext, ih]
          simp [runAux, hd]
      · have hnext : (⟨idx, I, last, [], parser,
            .record time kind payload :: rest⟩ : TerminalFrameIter).next =
            (some (.error (.genericParserError
                ("unsupported record kind: " ++ kind))),
             ⟨idx, I, last, [], parser, rest⟩) := by
          simp [TerminalFrameIter.next, processLines, hk]
        rw [run_next_some _ _ _ hnext, ih]
        simp [runAux, hk]

lemma emittedIndices_nil : emittedIndices [] = [] := rfl

lemma emittedIndices_ok_cons (f : TerminalFrame)
    (rs : List (Except AsciinemaError TerminalFrame)) :
    emittedIndices (.ok f :: rs) = f.index :: emittedIndices rs := rfl

lemma emittedIndices_error_cons (e : AsciinemaError)
    (rs : List (Except AsciinemaError TerminalFrame)) :
    emittedIndices (.error e :: rs) = emittedIndices rs := rfl

lemma emittedIndices_append (a b : List (Except AsciinemaError TerminalFrame)) :
    emittedIndices (a ++ b) = emittedIndices a ++ emittedIndices b :=
  List.filterMap_append a b _

lemma emittedIndices_map_ok (l : List TerminalFrame) :
    emittedIndices (l.map .ok) = l.map TerminalFrame.index := by
  induction l with
  | nil => rfl
  | cons f t ihl => simp [emittedIndices] at ihl ⊢; exact ihl

/-- Indices emitted by `runAux` are pairwise distinct and bounded below by
the starting `next_index`: every recording line (kept, discarded or filler)
consumes a fresh block of indices, and later lines only use larger ones. -/
lemma runAux_indices (lines : List Line) :
    ∀ (parser : String) (idx : Nat) (I last : ℚ),
      lines.all Line.isWellFormed = true →
      (emittedIndices (runAux parser idx I last lines)).Nodup ∧
        ∀ n ∈ emittedIndices (runAux parser idx I last lines), idx ≤ n := by
  induction lines with
  | nil =>
    intro parser idx I last _
    simp [runAux, emittedIndices_nil]
  | cons line rest ih =>
    intro parser idx I last hwf
    rw [List.all_cons, Bool.and_eq_true] at hwf
    obtain ⟨hline, hrest⟩ := hwf
    cases line with
    | empty => simpa [runAux] using ih parser idx I last hrest
    | ioError => simp [Line.isWellFormed] at hline
    | malformed text => simp [Line.isWellFormed] at hline
    | record time kind payload =>
      have hk : kind = "o" := by
        simpa [Line.isWellFormed] using hline
      subst hk
      by_cases hd : time - last ≥ I
      · by_cases hrep : (⌊(time - last) / I⌋).toNat = 0
        · have hrw : runAux parser idx I last (.record time "o" payload :: rest) =
              .ok ⟨idx, time, parser ++ payload⟩ ::
                runAux (parser ++ payload) (idx + 1) I time rest := by
            simp [runAux, hd, hrep]
          obtain ⟨ihn, ihb⟩ := ih (parser ++ payload) (idx + 1) I time hrest
          rw [hrw, emittedIndices_ok_cons]
          dsimp only
          refine ⟨List.nodup_cons.mpr ⟨fun hmem => ?_, ihn⟩, ?_⟩
          · exact absurd (ihb idx hmem) (by omega)
          · intro n hn
            rcases List.mem_cons.mp hn with h1 | h1
            · omega
            · exact le_of_lt (Nat.lt_of_succ_le (ihb n h1))
        · set k := (⌊(time - last) / I⌋).toNat with hkdef
          have hrw : runAux parser idx I last (.record time "o" payload :: rest) =
              (.ok ⟨idx, time, parser ++ payload⟩ ::
                ((List.range (k - 1)).map fun j =>
                  (⟨idx + (j + 1), time + ((j : ℚ) + 1) * I,
                    parser ++ payload⟩ : TerminalFrame)).reverse.map .ok) ++
                runAux (parser ++ payload) (idx + k) I time rest := by
            simp only [runAux, ne_eq, not_true_eq_false, if_false, ite_false,
              if_pos hd, if_neg hrep, ← hkdef]
          obtain ⟨ihn, ihb⟩ := ih (parser ++ payload) (idx + k) I time hrest
          rw [hrw, emittedIndices_append, emittedIndices_ok_cons]
          dsimp only
          have hmapidx :
              emittedIndices (((List.range (k - 1)).map fun j =>
                (⟨idx + (j + 1), time + ((j : ℚ) + 1) * I,
                  parser ++ payload⟩ : TerminalFrame)).reverse.map .ok) =
              ((List.range (k - 1)).map fun j => idx + (j + 1)).reverse := by
            rw [emittedIndices_map_ok, List.map_reverse, List.map_map]
            rfl
          rw [hmapidx]
          have hpushed_mem : ∀ n ∈ ((List.range (k - 1)).map
              fun j => idx + (j + 1)).reverse, idx + 1 ≤ n ∧ n < idx + k := by
            intro n hn
            rw [List.mem_reverse, List.mem_map] at hn
            obtain ⟨j, hj, rfl⟩ := hn
            rw [List.mem_range] at hj
            omega
          have hpushed_nodup :
              (((List.range (k - 1)).map fun j => idx + (j + 1)).reverse).Nodup := by
            rw [List.nodup_reverse]
            refine List.Nodup.map ?_ (List.nodup_range _)
            intro a b hab
            dsimp only at hab
            omega
          constructor
          · rw [List.cons_append, List.nodup_cons]
            refine ⟨?_, ?_⟩
            · intro hmem
              rcases List.mem_append.mp hmem with h1 | h1
              · exact absurd (hpushed_mem idx h1).1 (by omega)
              · exact absurd (ihb idx h1) (by omega)
            · refine List.Nodup.append hpushed_nodup ihn ?_
              intro a ha hb
              have h1 := (hpushed_mem a ha).2
              have h2 := ihb a hb
              omega
          · intro n hn
            rcases List.mem_cons.mp hn with h1 | h1
            · omega
            · rcases List.mem_append.mp h1 with h2 | h2
              · exact le_trans (by omega) (hpushed_mem n h2).1
              · exact le_trans (by omega) (ihb n h2)
      · have hrw : runAux parser idx I last (.record time "o" payload :: rest) =
            runAux (parser ++ payload) (idx + 1) I last rest := by
          simp [runAux, hd]
        obtain ⟨ihn, ihb⟩ := ih (parser ++ payload) (idx + 1) I last hrest
        rw [hrw]
        exact ⟨ihn, fun n hn => le_trans (by omega) (ihb n hn)⟩

lemma new_meta2 (w h : Nat) (events : List Line) (I : ℚ) :
    TerminalFrameIter.new ⟨some (.meta 2 w h), events⟩ I =
      .ok ⟨0, I, 0, [], "", events⟩ := by
  simp [TerminalFrameIter.new]

lemma findBuffered_eq_none (current : Nat) (b : List RgbaFrame)
    (h : ∀ f ∈ b, f.index ≠ current) : findBuffered current b = none := by
  induction b with
  | nil => rfl
  | cons g rest ih =>
    have hg : g.index ≠ current := h g (List.mem_cons_self g rest)
    rw [findBuffered, if_neg hg, ih fun f hf => h f (List.mem_cons_of_mem g hf)]
    rfl

lemma findBuffered_none_mem (current : Nat) (b : List RgbaFrame)
    (h : findBuffered current b = none) : ∀ f ∈ b, f.index ≠ current := by
  induction b with
  | nil => simp
  | cons g rest ih =>
    by_cases hg : g.index = current
    · simp [findBuffered, hg] at h
    · intro f hf
      rcases List.mem_cons.mp hf with rfl | hf'
      · exact hg
      · simp only [findBuffered, if_neg hg, Option.map_eq_none'] at h
        exact ih h f hf'

lemma pullNext_none (current : Nat) (fr : List RgbaFrame) :
    ∀ (b b' fr' : List RgbaFrame),
      pullNext current b fr = (none, b', fr') →
      b' = b ++ fr ∧ fr' = [] ∧ ∀ f ∈ fr, f.index ≠ current := by
  induction fr with
  | nil =>
    intro b b' fr' h
    simp [pullNext] at h
    obtain ⟨h1, h2⟩ := h
    subst h2
    refine ⟨?_, rfl, by simp⟩
    rw [← h1]
    simp
  | cons g rest ih =>
    intro b b' fr' h
    by_cases hg : g.index = current
    · simp [pullNext, hg] at h
    · rw [pullNext, if_neg hg] at h
      obtain ⟨hb, hfr, hmem⟩ := ih (b ++ [g]) b' fr' h
      refine ⟨by simp [hb], hfr, ?_⟩
      intro f hf
      rcases List.mem_cons.mp hf with rfl | hf'
      · exact hg
      · exact hmem f hf'

/-- `next` always advances the wanted index, also when it returns `none`. -/
lemma ordered_next_snd_current (s : OrderedFrameIter) :
    (s.next).2.current_frame = s.current_frame + 1 := by
  unfold OrderedFrameIter.next
  cases hfb : findBuffered s.current_frame s.buffer with
  | some pr =>
    obtain ⟨g, b'⟩ := pr
    rfl
  | none => rfl

lemma ordered_run_unfold (s : OrderedFrameIter) :
    s.run = match s.next with
      | (none, _) => []
      | (some f, s') => f :: s'.run := by
  rw [OrderedFrameIter.run.eq_def]
  rcases hn : s.next with ⟨_ | f, s'⟩ <;> simp

lemma ordered_run_next_none (s s' : OrderedFrameIter)
    (h : s.next = (none, s')) : s.run = [] := by
  rw [ordered_run_unfold, h]

lemma ordered_run_next_some (s : OrderedFrameIter) (f : RgbaFrame)
    (s' : OrderedFrameIter) (h : s.next = (some f, s')) :
    s.run = f :: s'.run := by
  rw [ordered_run_unfold, h]

/-- If the wanted index is present among the held contents, `next` emits a
frame with exactly that index and removes it. -/
lemma ordered_next_of_mem (s : OrderedFrameIter)
    (hmem : ∃ g ∈ s.contents, g.index = s.current_frame) :
    ∃ f s', s.next = (some f, s') ∧ f.index = s.current_frame ∧
      s.contents.Perm (f :: s'.contents) ∧
      s'.current_frame = s.current_frame + 1 := by
  obtain ⟨g, hg, hgi⟩ := hmem
  cases hfb : findBuffered s.current_frame s.buffer with
  | some pr =>
    obtain ⟨f, b'⟩ := pr
    refine ⟨f, ⟨b', s.frames, s.current_frame + 1⟩, ?_, ?_, ?_, rfl⟩
    · unfold OrderedFrameIter.next
      rw [hfb]
    · exact (findBuffered_some _ _ _ _ hfb).1
    · exact ((findBuffered_some _ _ _ _ hfb).2).append_right s.frames
  | none =>
    have hnotbuf := findBuffered_none_mem _ _ hfb
    have hgfr : g ∈ s.frames := by
      rcases List.mem_append.mp hg with h1 | h1
      · exact absurd hgi (hnotbuf g h1)
      · exact h1
    cases hpn : pullNext s.current_frame s.buffer s.frames with
    | mk r rest =>
      obtain ⟨b', fr'⟩ := rest
      cases r with
      | none =>
        obtain ⟨_, _, hnone⟩ := pullNext_none _ _ _ _ _ hpn
        exact absurd hgi (hnone g hgfr)
      | some f =>
        obtain ⟨hidx, hperm⟩ := pullNext_some _ _ _ _ _ _ hpn
        refine ⟨f, ⟨b', fr', s.current_frame + 1⟩, ?_, hidx, hperm, rfl⟩
        unfold OrderedFrameIter.next
        rw [hfb, hpn]

/-- If the held contents carry exactly the indices
`current, current+1, ..., current+n-1` (in any order), the reassembler
emits all of them, as a permutation of the contents, in exactly ascending
index order. -/
lemma ordered_run_spec (n : Nat) :
    ∀ (s : OrderedFrameIter),
      (s.contents.map RgbaFrame.index).Perm (List.range' s.current_frame n) →
      s.run.Perm s.contents ∧
        s.run.map RgbaFrame.index = List.range' s.current_frame n := by
  induction n with
  | zero =>
    intro s hinv
    rw [List.range'_zero] at hinv
    have hc : s.contents = [] := List.map_eq_nil_iff.mp hinv.eq_nil
    obtain ⟨hb, hf⟩ := List.append_eq_nil.mp
      (by simpa [OrderedFrameIter.contents] using hc)
    have hnone : s.next = (none, ⟨s.buffer, [], s.current_frame + 1⟩) := by
      unfold OrderedFrameIter.next
      rw [findBuffered_eq_none _ _ (by simp [hb]), hf]
      rfl
    rw [ordered_run_next_none _ _ hnone, hc]
    exact ⟨List.Perm.refl _, rfl⟩
  | succ n ih =>
    intro s hinv
    have hrange : List.range' s.current_frame (n + 1) =
        s.current_frame :: List.range' (s.current_frame + 1) n :=
      List.range'_succ _ _ 1
    have hmem : ∃ g ∈ s.contents, g.index = s.current_frame := by
      have : s.current_frame ∈ s.contents.map RgbaFrame.index := by
        rw [hinv.mem_iff, hrange]
        exact List.mem_cons_self _ _
      obtain ⟨g, hg, hgi⟩ := List.mem_map.mp this
      exact ⟨g, hg, hgi⟩
    obtain ⟨f, s', hnext, hfi, hperm, hcur⟩ := ordered_next_of_mem s hmem
    have hinv' : (s'.contents.map RgbaFrame.index).Perm
        (List.range' s'.current_frame n) := by
      have h1 : (s.contents.map RgbaFrame.index).Perm
          (f.index :: s'.contents.map RgbaFrame.index) := hperm.map _
      have h2 : (f.index :: s'.contents.map RgbaFrame.index).Perm
          (List.range' s.current_frame (n + 1)) := h1.symm.trans hinv
      rw [hfi, hrange] at h2
      rw [hcur]
      exact h2.cons_inv
    obtain ⟨ihp, ihm⟩ := ih s' hinv'
    rw [ordered_run_next_some _ _ _ hnext]
    constructor
    · exact (ihp.cons f).trans hperm.symm
    · rw [List.map_cons, ihm, hfi, hcur, hrange]

lemma findBuffered_of_unique (c : Nat) (b : List RgbaFrame) (f : RgbaFrame)
    (hfmem : f ∈ b) (hfidx : f.index = c)
    (huniq : ∀ g ∈ b, g.index = c → g = f) :
    ∃ b', findBuffered c b = some (f, b') := by
  induction b with
  | nil => simp at hfmem
  | cons g rest ih =>
    by_cases hgi : g.index = c
    · have hgf : g = f := huniq g (List.mem_cons_self g rest) hgi
      subst hgf
      exact ⟨rest, by rw [findBuffered, if_pos hgi]⟩
    · have hfrest : f ∈ rest := by
        rcases List.mem_cons.mp hfmem with rfl | h1
        · exact absurd hfidx hgi
        · exact h1
      obtain ⟨b', hb'⟩ := ih hfrest
        (fun g' hg' => huniq g' (List.mem_cons_of_mem g hg'))
      exact ⟨g :: b', by rw [findBuffered, if_neg hgi, hb']; rfl⟩

lemma applyCmd_step (p : CastRenderProgress) (cmd : ProgressCmd) :
    ProgressStep p (applyCmd p cmd) := by
  cases cmd <;> simp [applyCmd, ProgressStep] <;> omega

lemma progressLoop_length (cmds : List ProgressCmd) :
    ∀ init, (progressLoop init cmds).length = cmds.length := by
  induction cmds with
  | nil => intro init; rfl
  | cons c rest ih => intro init; simp [progressLoop, ih]

lemma progressLoop_eq_scanl_tail (cmds : List ProgressCmd) :
    ∀ init, init :: progressLoop init cmds = List.scanl applyCmd init cmds := by
  induction cmds with
  | nil => intro init; rfl
  | cons c rest ih =>
    intro init
    rw [List.scanl, progressLoop, ← ih (applyCmd init c)]

lemma progressLoop_chain (cmds : List ProgressCmd) :
    ∀ init, List.Chain' ProgressStep (init :: progressLoop init cmds) := by
  induction cmds with
  | nil => intro init; simp [progressLoop]
  | cons c rest ih =>
    intro init
    rw [progressLoop, List.chain'_cons]
    exact ⟨applyCmd_step init c, ih (applyCmd init c)⟩

/-- C1 (counterexample to the original claim): for the version-2 recording
with events `[0.0, "o", "a"]` and `[0.35, "o", "b"]` sampled at interval
`0.1`, the sampler runs to completion producing N = 3 snapshots whose
indices in emission order are `[1, 3, 2]`: not the multiset `{0, 1, 2}`
(the first event is discarded but still consumes index 0) and not strictly
increasing (queued fillers are popped LIFO, hence 3 before 2). -/
theorem c1_index_density_counterexample :
    TerminalFrameIter.new
        ⟨some (.meta 2 80 24), [.record 0 "o" "a", .record (7/20) "o" "b"]⟩
        (1/10) =
      .ok ⟨0, 1/10, 0, [], "", [.record 0 "o" "a", .record (7/20) "o" "b"]⟩ ∧
    emittedIndices (TerminalFrameIter.run
        ⟨0, 1/10, 0, [], "", [.record 0 "o" "a", .record (7/20) "o" "b"]⟩) =
      [1, 3, 2] ∧
    ¬ ([1, 3, 2] : List Nat).Perm (List.range 3) ∧
    ¬ List.Sorted (· < ·) ([1, 3, 2] : List Nat) := by
  refine ⟨new_meta2 80 24 _ (1/10), ?_, by decide, by decide⟩
  have hrun : TerminalFrameIter.run
      ⟨0, 1/10, 0, [], "", [.record 0 "o" "a", .record (7/20) "o" "b"]⟩ =
      [.ok ⟨1, 7/20, "ab"⟩, .ok ⟨3, 11/20, "ab"⟩, .ok ⟨2, 9/20, "ab"⟩] := by
    rw [run_eq_runAux]
    norm_num [runAux]
    refine ⟨rfl, ?_⟩
    rw [show Int.toNat 3 - 1 = 2 from rfl]
    rw [show List.range 2 = [0, 1] from rfl]
    simp only [List.map_cons, List.map_nil, Function.comp_apply]
    norm_num
    rfl
  rw [hrun]
  rfl

/-- C1 (amended): for every well-formed version-2 recording, the sampler's
emitted snapshot indices are pairwise distinct — each index appears at most
once.  (Density and ascending emission order do not hold in general: events
discarded by the sampling policy still consume an index, and queued filler
snapshots are popped from the back of the queue, i.e. emitted in descending
index order.) -/
theorem c1_emitted_indices_distinct (w h : Nat) (events : List Line) (I : ℚ)
    (s : TerminalFrameIter)
    (hnew : TerminalFrameIter.new ⟨some (.meta 2 w h), events⟩ I = .ok s)
    (hwf : events.all Line.isWellFormed = true) :
    (emittedIndices s.run).Nodup := by
  rw [new_meta2] at hnew
  cases hnew
  rw [run_eq_runAux]
  exact (runAux_indices events "" 0 I 0 hwf).1

theorem c1_emitted_indices_distinct_witness :
    TerminalFrameIter.new ⟨some (.meta 2 80 24), [.record 1 "o" "x"]⟩ 1 =
      .ok ⟨0, 1, 0, [], "", [.record 1 "o" "x"]⟩ ∧
    ([Line.record 1 "o" "x"].all Line.isWellFormed = true) ∧
    (emittedIndices (TerminalFrameIter.run
        ⟨0, 1, 0, [], "", [.record 1 "o" "x"]⟩)).Nodup :=
  ⟨new_meta2 80 24 _ 1, by decide,
    c1_emitted_indices_distinct 80 24 [.record 1 "o" "x"] 1
      ⟨0, 1, 0, [], "", [.record 1 "o" "x"]⟩ (new_meta2 80 24 _ 1) (by decide)⟩

/-- C2: feed any permutation of a complete, index-complete frame set
(indices exactly `0..N-1`, each once) into the reassembler; the emitted
sequence is a permutation of the input containing the indices in exactly
ascending order `0, 1, ..., N-1` — i.e. the ascending-index ordering of that
same set, with no duplicates and no omissions, regardless of arrival
order. -/
theorem c2_reassembly (l : List RgbaFrame) (N : Nat)
    (hperm : (l.map RgbaFrame.index).Perm (List.range N)) :
    (OrderedFrameIter.run (OrderedFrameIter.new l)).Perm l ∧
      (OrderedFrameIter.run (OrderedFrameIter.new l)).map RgbaFrame.index =
        List.range N := by
  have hinv : ((OrderedFrameIter.new l).contents.map RgbaFrame.index).Perm
      (List.range' (OrderedFrameIter.new l).current_frame N) := by
    simpa [OrderedFrameIter.new, OrderedFrameIter.contents,
      List.range_eq_range'] using hperm
  obtain ⟨h1, h2⟩ := ordered_run_spec N (OrderedFrameIter.new l) hinv
  refine ⟨h1.trans ?_, by rwa [List.range_eq_range']⟩
  simp [OrderedFrameIter.new, OrderedFrameIter.contents]

theorem c2_reassembly_witness :
    (([(⟨1, 5, 10⟩ : RgbaFrame), ⟨0, 0, 20⟩, ⟨2, 7, 30⟩].map
        RgbaFrame.index).Perm (List.range 3)) ∧
    ((OrderedFrameIter.run (OrderedFrameIter.new
        [⟨1, 5, 10⟩, ⟨0, 0, 20⟩, ⟨2, 7, 30⟩])).Perm
          [⟨1, 5, 10⟩, ⟨0, 0, 20⟩, ⟨2, 7, 30⟩] ∧
      (OrderedFrameIter.run (OrderedFrameIter.new
          [⟨1, 5, 10⟩, ⟨0, 0, 20⟩, ⟨2, 7, 30⟩])).map RgbaFrame.index =
        List.range 3) :=
  ⟨by decide,
    c2_reassembly [⟨1, 5, 10⟩, ⟨0, 0, 20⟩, ⟨2, 7, 30⟩] 3 (by decide)⟩

/-- C3 (counterexample to the original claim): the recording with header
`{version: 2, width: 80, height: 24, ...}` and events `[0.0, "o", "A"]`,
`[0.05, "o", "B"]`, sampled at interval `0.1`, yields an empty snapshot
sequence — not one snapshot.  Both events have `dt < 0.1` relative to the
last emitted time (0), so both are discarded, and the iterator has no
end-of-stream flush. -/
theorem c3_end_to_end_counterexample :
    TerminalFrameIter.new
        ⟨some (.meta 2 80 24), [.record 0 "o" "A", .record (1/20) "o" "B"]⟩
        (1/10) =
      .ok ⟨0, 1/10, 0, [], "", [.record 0 "o" "A", .record (1/20) "o" "B"]⟩ ∧
    TerminalFrameIter.run
        ⟨0, 1/10, 0, [], "", [.record 0 "o" "A", .record (1/20) "o" "B"]⟩ = [] := by
  refine ⟨new_meta2 80 24 _ (1/10), ?_⟩
  rw [run_eq_runAux]
  norm_num [runAux]

/-- C3 (amended): for that same recording and interval, the sampler emits
zero snapshots: the single call to `next` consumes both events (updating the
emulator with "A" then "B", so its state ends as "AB") and returns `none`
without emitting, since `dt < I` holds at both events and nothing is flushed
at end of stream. -/
theorem c3_end_to_end_amended :
    TerminalFrameIter.run
        ⟨0, 1/10, 0, [], "", [.record 0 "o" "A", .record (1/20) "o" "B"]⟩ = [] ∧
    (⟨0, 1/10, 0, [], "", [.record 0 "o" "A", .record (1/20) "o" "B"]⟩ :
        TerminalFrameIter).next =
      (none, ⟨2, 1/10, 0, [], "AB", []⟩) := by
  constructor
  · rw [run_eq_runAux]
    norm_num [runAux]
  · norm_num [TerminalFrameIter.next, processLines]
    rfl

/-- C4: for interval `I > 0` and a real event at time `t2` arriving when the
last emitted time is `t1 < t2` (consecutive events, the first of which was
emitted), the sampler emits exactly `⌊(t2 - t1) / I⌋` snapshots attributable
to that gap — all successful — and when `t2 - t1 < I` it emits nothing from
the event while still feeding the payload into the terminal emulator. -/
theorem c4_sampling_rate (parser : String) (idx : Nat) (I t1 t2 : ℚ)
    (p : String) (hI : 0 < I) (_h12 : t1 < t2) :
    (I ≤ t2 - t1 →
      (TerminalFrameIter.run ⟨idx, I, t1, [], parser, [.record t2 "o" p]⟩).length
          = (⌊(t2 - t1) / I⌋).toNat ∧
      ∀ r ∈ TerminalFrameIter.run ⟨idx, I, t1, [], parser, [.record t2 "o" p]⟩,
        ∃ f, r = .ok f) ∧
    (t2 - t1 < I →
      TerminalFrameIter.run ⟨idx, I, t1, [], parser, [.record t2 "o" p]⟩ = [] ∧
      (⟨idx, I, t1, [], parser, [.record t2 "o" p]⟩ : TerminalFrameIter).next =
        (none, ⟨idx + 1, I, t1, [], parser ++ p, []⟩)) := by
  constructor
  · intro hd
    have hk1 : 1 ≤ ⌊(t2 - t1) / I⌋ := by
      rw [Int.le_floor]
      rw [le_div_iff₀ hI]
      simpa using hd
    have hrep : (⌊(t2 - t1) / I⌋).toNat ≠ 0 := by omega
    rw [run_eq_runAux]
    have hrw : runAux parser idx I t1 [.record t2 "o" p] =
        .ok ⟨idx, t2, parser ++ p⟩ ::
          ((List.range ((⌊(t2 - t1) / I⌋).toNat - 1)).map fun j =>
            (⟨idx + (j + 1), t2 + ((j : ℚ) + 1) * I, parser ++ p⟩ :
              TerminalFrame)).reverse.map .ok := by
      simp only [runAux, ne_eq, not_true_eq_false, if_false, ite_false,
        if_pos hd, if_neg hrep]
      simp
    rw [hrw]
    constructor
    · simp only [List.length_cons, List.length_map, List.length_reverse,
        List.length_range]
      omega
    · intro r hr
      rcases List.mem_cons.mp hr with h1 | h1
      · exact ⟨_, h1⟩
      · obtain ⟨f, _, rfl⟩ := List.mem_map.mp h1
        exact ⟨f, rfl⟩
  · intro hd
    have hd' : ¬ (t2 - t1 ≥ I) := not_le.mpr hd
    constructor
    · rw [run_eq_runAux]
      simp [runAux, hd']
    · simp [TerminalFrameIter.next, processLines, hd']

theorem c4_sampling_rate_witness :
    (0 : ℚ) < 1/10 ∧ (0 : ℚ) < 7/20 ∧
    (((1 : ℚ)/10 ≤ 7/20 - 0 →
      (TerminalFrameIter.run ⟨0, 1/10, 0, [], "", [.record (7/20) "o" "x"]⟩).length
          = (⌊((7 : ℚ)/20 - 0) / (1/10)⌋).toNat ∧
      ∀ r ∈ TerminalFrameIter.run ⟨0, 1/10, 0, [], "", [.record (7/20) "o" "x"]⟩,
        ∃ f, r = .ok f) ∧
    ((7 : ℚ)/20 - 0 < 1/10 →
      TerminalFrameIter.run ⟨0, 1/10, 0, [], "", [.record (7/20) "o" "x"]⟩ = [] ∧
      (⟨0, 1/10, 0, [], "", [.record (7/20) "o" "x"]⟩ : TerminalFrameIter).next =
        (none, ⟨0 + 1, 1/10, 0, [], "" ++ "x", []⟩))) :=
  ⟨by norm_num, by norm_num,
    c4_sampling_rate "" 0 (1/10) 0 (7/20) "x" (by norm_num) (by norm_num)⟩

/-- C5: a header that parses to metadata with any version other than 2 makes
`TerminalFrameIter::new` fail with `InvalidVersion` carrying that version;
no iterator — hence no snapshot — is ever produced. -/
theorem c5_version_gate (v w h : Nat) (events : List Line) (I : ℚ)
    (hv : v ≠ 2) :
    TerminalFrameIter.new ⟨some (.meta v w h), events⟩ I =
        .error (.invalidVersion v) ∧
    ∀ s, TerminalFrameIter.new ⟨some (.meta v w h), events⟩ I ≠ .ok s := by
  have hmain : TerminalFrameIter.new ⟨some (.meta v w h), events⟩ I =
      .error (.invalidVersion v) := by
    simp [TerminalFrameIter.new, hv]
  refine ⟨hmain, fun s hcontra => ?_⟩
  rw [hmain] at hcontra
  exact Except.noConfusion hcontra

theorem c5_version_gate_witness :
    (1 : Nat) ≠ 2 ∧
    (TerminalFrameIter.new ⟨some (.meta 1 80 24), []⟩ 1 =
        .error (.invalidVersion 1) ∧
      ∀ s, TerminalFrameIter.new ⟨some (.meta 1 80 24), []⟩ 1 ≠ .ok s) :=
  ⟨by decide, c5_version_gate 1 80 24 [] 1 (by decide)⟩

/-- C6 (evidence of the code bug): a source whose header declares version 1
— a fatal, typed `InvalidVersion` error at the parser level — makes the
top-level conversion panic with the placeholder message `"TODO"` instead of
returning any typed error value to the caller. -/
theorem c6_fatal_errors_panic :
    convert_to_gif ⟨some (.meta 1 80 24), []⟩ 1 = .panicked "TODO" ∧
    ∀ e, convert_to_gif ⟨some (.meta 1 80 24), []⟩ 1 ≠ .err e := by
  have hnew : TerminalFrameIter.new ⟨some (.meta 1 80 24), []⟩ 1 =
      .error (.invalidVersion 1) := by
    simp [TerminalFrameIter.new]
  have hmain : convert_to_gif ⟨some (.meta 1 80 24), []⟩ 1 = .panicked "TODO" := by
    rw [convert_to_gif, convert_to_gif_with_progress, hnew]
  refine ⟨hmain, fun e hcontra => ?_⟩
  rw [hmain] at hcontra
  exact ConvertOutcome.noConfusion hcontra

/-- C7 (evidence of the code bug): for a version-2 recording whose only
record is `[1.0, "x", "payload"]`, the sampler yields exactly one
unsupported-event error (`GenericParserError`) and zero snapshots — but the
conversion does not return that error: `png_raster_thread` unwraps it with
`expect("TODO")` and panics. -/
theorem c7_unsupported_event :
    TerminalFrameIter.run ⟨0, 1, 0, [], "", [.record 1 "x" "payload"]⟩ =
      [.error (.genericParserError ("unsupported record kind: " ++ "x"))] ∧
    emittedIndices (TerminalFrameIter.run
      ⟨0, 1, 0, [], "", [.record 1 "x" "payload"]⟩) = [] ∧
    convert_to_gif ⟨some (.meta 2 80 24), [.record 1 "x" "payload"]⟩ 1 =
      .panicked "TODO" ∧
    ∀ e, convert_to_gif ⟨some (.meta 2 80 24), [.record 1 "x" "payload"]⟩ 1 ≠
      .err e := by
  have hrun : TerminalFrameIter.run ⟨0, 1, 0, [], "", [.record 1 "x" "payload"]⟩ =
      [.error (.genericParserError ("unsupported record kind: " ++ "x"))] := by
    rw [run_eq_runAux]
    rw [runAux, if_pos (by decide), runAux]
  have hmain : convert_to_gif ⟨some (.meta 2 80 24), [.record 1 "x" "payload"]⟩ 1 =
      .panicked "TODO" := by
    rw [convert_to_gif, convert_to_gif_with_progress, new_meta2]
    simp only [hrun]
    rfl
  refine ⟨hrun, by rw [hrun]; rfl, hmain, fun e hcontra => ?_⟩
  rw [hmain] at hcontra
  exact ConvertOutcome.noConfusion hcontra


/-- C8: sampling is deterministic — running the sampler twice over the same
source bytes with the same interval yields identical snapshot sequences
(identical position by position in index, timestamp and screen content,
since the lists are equal).  In the embedding the sampler is a pure function
of the classified source lines, which is exactly the determinism argument:
its output depends on nothing but the input bytes and the interval. -/
theorem c8_deterministic (input1 input2 : CastInput) (I1 I2 : ℚ)
    (hin : input1 = input2) (hI : I1 = I2) :
    sample input1 I1 = sample input2 I2 := by
  rw [hin, hI]

theorem c8_deterministic_witness :
    (⟨some (.meta 2 80 24), [.record 1 "o" "x"]⟩ : CastInput) =
        ⟨some (.meta 2 80 24), [.record 1 "o" "x"]⟩ ∧
    (1 : ℚ) = 1 ∧
    sample ⟨some (.meta 2 80 24), [.record 1 "o" "x"]⟩ 1 =
      sample ⟨some (.meta 2 80 24), [.record 1 "o" "x"]⟩ 1 :=
  ⟨rfl, rfl,
    c8_deterministic ⟨some (.meta 2 80 24), [.record 1 "o" "x"]⟩
      ⟨some (.meta 2 80 24), [.record 1 "o" "x"]⟩ 1 1 rfl rfl⟩

/-- C9: over one conversion job the progress counters start at zero, the
observer is invoked exactly once per applied event with the resulting
counter values (the observation sequence is exactly the scan of the event
sequence), and along consecutive observations each counter is unchanged or
incremented by one — in particular all three counters are monotonically
non-decreasing. -/
theorem c9_progress_monotone (cmds : List ProgressCmd) :
    (progress_thread cmds).length = cmds.length ∧
    (⟨0, 0, 0⟩ : CastRenderProgress) :: progress_thread cmds =
      List.scanl applyCmd ⟨0, 0, 0⟩ cmds ∧
    List.Chain' ProgressStep
      ((⟨0, 0, 0⟩ : CastRenderProgress) :: progress_thread cmds) :=
  ⟨progressLoop_length cmds _, progressLoop_eq_scanl_tail cmds _,
    progressLoop_chain cmds _⟩

/-- C10: when the underlying iterator is exhausted and the wanted index is
not in the buffer, `next` returns `none` but still increments the wanted
index; hence a subsequent call can return a buffered frame with a higher
index — the iterator is not fused and an incomplete set's missing index is
silently skipped. -/
theorem c10_none_increments_wanted (s : OrderedFrameIter)
    (hf : s.frames = [])
    (hb : ∀ f ∈ s.buffer, f.index ≠ s.current_frame) :
    s.next = (none, ⟨s.buffer, [], s.current_frame + 1⟩) ∧
    ∀ f ∈ s.buffer, f.index = s.current_frame + 1 →
      (∀ g ∈ s.buffer, g.index = s.current_frame + 1 → g = f) →
      ((⟨s.buffer, [], s.current_frame + 1⟩ :
        OrderedFrameIter).next).1 = some f := by
  constructor
  · unfold OrderedFrameIter.next
    rw [findBuffered_eq_none _ _ hb, hf]
    rfl
  · intro f hfmem hfidx huniq
    obtain ⟨b', hb'⟩ :=
      findBuffered_of_unique (s.current_frame + 1) s.buffer f hfmem hfidx huniq
    unfold OrderedFrameIter.next
    rw [hb']

theorem c10_none_increments_wanted_witness :
    ((⟨[⟨1, 0, 0⟩], [], 0⟩ : OrderedFrameIter).next =
        (none, ⟨[⟨1, 0, 0⟩], [], 1⟩)) ∧
    ((⟨[(⟨1, 0, 0⟩ : RgbaFrame)], [], 1⟩ : OrderedFrameIter).next).1 =
      some ⟨1, 0, 0⟩ := by
  have H := c10_none_increments_wanted ⟨[⟨1, 0, 0⟩], [], 0⟩ rfl (by decide)
  exact ⟨H.1, H.2 ⟨1, 0, 0⟩ (by decide) rfl (by decide)⟩

end Cast2Gif
